import Mathlib

/-!
# Verification of the InfoWorld profile scraper / RSS generator

Shallow embedding of the extraction and serialization logic of
`src/scraper.js` (current revision) and, where a claim refers to it, of the
earlier revision `src/unnamed/part_002`.  The DOM-rendering collaborator
(puppeteer) is out of scope per the spec; the per-candidate strings that the
DOM queries produce (anchor text, heading text, attribute values, container
text, hrefs) are the inputs of the embedded functions.  JavaScript strings
are modelled as Lean `String`/`List Char` (one Lean `Char` per JS code
unit; all inputs of interest are ASCII), JS regular expressions are embedded
as explicit backtracking matchers with the same leftmost-match, greedy /
lazy preference order, and JS `Date` / `toUTCString` are treated as external
collaborators (explicit function parameters), with timestamps as `Int`
milliseconds.
-/

namespace Scraper

set_option maxHeartbeats 1000000

/-! ## Character classes (JS regex `\w`, `\s`, `\d`, `.`) -/

/-- JS regex `\w`: `[A-Za-z0-9_]`. -/
def isWordC (c : Char) : Bool := c.isAlpha || c.isDigit || c = '_'

/-- JS regex `\s` (ASCII part: space, tab, LF, CR, VT, FF). -/
def isSpaceC (c : Char) : Bool :=
  c = ' ' || c = '\t' || c = '\n' || c = '\r' || c = '\x0b' || c = '\x0c'

/-- JS regex `\d`. -/
def isDigitC (c : Char) : Bool := c.isDigit

/-- JS regex `.` without the `s` flag: any char except line terminators. -/
def isDotC (c : Char) : Bool := !(c = '\n' || c = '\r')

/-! ## Basic string helpers mirroring JS string methods -/

/-- JS `String.prototype.trim` (restricted to the ASCII whitespace set). -/
def jsTrimL (l : List Char) : List Char :=
  ((l.dropWhile isSpaceC).reverse.dropWhile isSpaceC).reverse

def jsTrim (s : String) : String := String.mk (jsTrimL s.data)

/-- Is `p` a prefix of `l`? -/
def isPrefixL : List Char → List Char → Bool
  | [], _ => true
  | _ :: _, [] => false
  | c :: p, d :: l => c = d && isPrefixL p l

/-- JS `String.prototype.includes`. -/
def containsL (sub : List Char) : List Char → Bool
  | [] => sub.isEmpty
  | c :: l => isPrefixL sub (c :: l) || containsL sub l

def containsS (hay sub : String) : Bool := containsL sub.data hay.data

/-- Does `l` end with `p`? -/
def endsWithL (p l : List Char) : Bool := isPrefixL p.reverse l.reverse

/-- JS `String.prototype.split(sep)` for a single-character separator. -/
def splitOnC (sep : Char) (l : List Char) : List (List Char) :=
  l.foldr (fun c acc =>
    match acc with
    | g :: gs => if c = sep then [] :: g :: gs else (c :: g) :: gs
    | [] => [[c]]) [[]]

/-- JS `String.prototype.toLowerCase` (ASCII). -/
def toLowerL (l : List Char) : List Char := l.map Char.toLower

/-- JS `s.substring(0, n)`. -/
def jsTakeS (n : Nat) (s : String) : String := String.mk (s.data.take n)

/-! ## Backtracking regex combinators

A matcher at a position has type `List Char → Option α`: it consumes some
prefix of the given suffix and passes the remainder to its continuation.
Alternatives are tried in the same preference order as a JS backtracking
engine (greedy quantifiers longest-first, lazy ones shortest-first,
alternation left-to-right), so a successful result is the same match a JS
engine would select. -/

/-- Try `f n` for `n = hi, hi-1, …, lo` (first success wins). -/
def tryDown (f : Nat → Option α) (lo : Nat) : Nat → Option α
  | 0 => if lo = 0 then f 0 else none
  | n + 1 =>
    if n + 1 < lo then none
    else match f (n + 1) with
      | some a => some a
      | none => tryDown f lo n

/-- Try `f cur`, `f (cur+1)`, … for `fuel+1` candidates (first success wins). -/
def tryUp (f : Nat → Option α) : Nat → Nat → Option α
  | cur, 0 => f cur
  | cur, fuel + 1 =>
    match f cur with
    | some a => some a
    | none => tryUp f (cur + 1) fuel

/-- Greedy `p{min,}` (so `p+` is `min = 1`, `p*` is `min = 0`) followed by a
continuation; backtracks from the longest possible run downwards. -/
def chMany (p : Char → Bool) (min : Nat) (k : List Char → Option α)
    (l : List Char) : Option α :=
  let mx := (l.takeWhile p).length
  tryDown (fun n => k (l.drop n)) min mx

/-- Lazy `p{min,}?`: tries the shortest run first. -/
def chManyLazy (p : Char → Bool) (min : Nat) (k : List Char → Option α)
    (l : List Char) : Option α :=
  let mx := (l.takeWhile p).length
  if min > mx then none else tryUp (fun n => k (l.drop n)) min (mx - min)

/-- Greedy `p{min,}` with the consumed run passed to the continuation. -/
def chManyCap (p : Char → Bool) (min : Nat)
    (k : List Char → List Char → Option α) (l : List Char) : Option α :=
  let mx := (l.takeWhile p).length
  tryDown (fun n => k (l.take n) (l.drop n)) min mx

/-- Exactly `n` characters of class `p` (JS `p{n}`). -/
def chExact (p : Char → Bool) : Nat → (List Char → Option α) → List Char →
    Option α
  | 0, k, l => k l
  | _ + 1, _, [] => none
  | n + 1, k, c :: l => if p c then chExact p n k l else none

/-- Case-insensitive literal (pattern given in lowercase). -/
def litCI : List Char → (List Char → Option α) → List Char → Option α
  | [], k, l => k l
  | _ :: _, _, [] => none
  | c :: p, k, d :: l => if d.toLower = c then litCI p k l else none

/-- Case-sensitive single character literal. -/
def litC (c : Char) (k : List Char → Option α) : List Char → Option α
  | [] => none
  | d :: l => if d = c then k l else none

/-- Greedy optional character, case-insensitive (JS `x?`). -/
def optCI (c : Char) (k : List Char → Option α) (l : List Char) : Option α :=
  match l with
  | [] => k []
  | d :: r =>
    if d.toLower = c then
      match k r with
      | some a => some a
      | none => k (d :: r)
    else k (d :: r)

/-- Left-to-right alternation of case-insensitive literals. -/
def altLitsCI (ws : List (List Char)) (k : List Char → Option α)
    (l : List Char) : Option α :=
  match ws with
  | [] => none
  | w :: rest =>
    match litCI w k l with
    | some a => some a
    | none => altLitsCI rest k l

/-- Succeed only at end of input (JS `$` without `m`). -/
def atEnd : List Char → Option (List Char)
  | [] => some []
  | _ :: _ => none

/-- Succeed anywhere without consuming (pattern end, unanchored). -/
def anyRest (l : List Char) : Option (List Char) := some l

/-! ## Leftmost-match search and replacement -/

/-- Leftmost match of matcher `M`: returns `(before, after)` where `after`
is the remainder `M` left; the matched portion sits in between. -/
def findFirst (M : List Char → Option (List Char)) :
    List Char → Option (List Char × List Char)
  | [] => (M []).map (fun rem => ([], rem))
  | c :: l =>
    match M (c :: l) with
    | some rem => some ([], rem)
    | none => (findFirst M l).map (fun p => (c :: p.1, p.2))

/-- JS `s.replace(pattern, repl)` for a non-global regex. -/
def replaceFirst (M : List Char → Option (List Char)) (repl : List Char)
    (l : List Char) : List Char :=
  match findFirst M l with
  | some (b, a) => b ++ repl ++ a
  | none => l

/-- JS `s.replace(pattern, repl)` for a global regex (all our global
patterns only produce non-empty matches; an empty match stops the scan). -/
def replaceAllAux (M : List Char → Option (List Char)) (repl : List Char) :
    Nat → List Char → List Char
  | 0, l => l
  | fuel + 1, l =>
    match findFirst M l with
    | none => l
    | some (b, a) =>
      if b.length + a.length = l.length then l
      else b ++ repl ++ replaceAllAux M repl fuel a

def replaceAll (M : List Char → Option (List Char)) (repl : List Char)
    (l : List Char) : List Char :=
  replaceAllAux M repl l.length l

/-- JS non-regex `s.replace(sub, repl)`: first occurrence of a literal. -/
def replaceFirstSub (sub repl l : List Char) : List Char :=
  replaceFirst (fun s => if isPrefixL sub s then some (s.drop sub.length) else none)
    repl l

/-- Replacement for a `^`-anchored regex: the pattern can only match at the
start of the string. -/
def replaceAtStart (M : List Char → Option (List Char)) (repl l : List Char) :
    List Char :=
  match M l with
  | some rem => repl ++ rem
  | none => l

/-- Exactly one character of class `p`. -/
def chOne (p : Char → Bool) (k : List Char → Option α) : List Char → Option α
  | [] => none
  | c :: l => if p c then k l else none

/-! ## The concrete regexes of `scrapeInfoWorldProfile` (scraper.js) -/

/-- `/^By\s+[\w\s]+\s+\w+\s+\d+,\s+\d{4}.*$/i` (line 234): the leading
byline wipe.  Matches the whole string or nothing. -/
def pLeadingBylineWipe : List Char → Option (List Char) :=
  litCI "by".data <| chMany isSpaceC 1 <|
  chMany (fun c => isWordC c || isSpaceC c) 1 <| chMany isSpaceC 1 <|
  chMany isWordC 1 <| chMany isSpaceC 1 <| chMany isDigitC 1 <|
  litC ',' <| chMany isSpaceC 1 <| chExact isDigitC 4 <|
  chMany isDotC 0 atEnd

/-- `/^By\s+Sharon\s+Machlis\s+\w+\s+\d+,\s+\d{4}\s+\d+\s+mins?\s+(.+)/i`
(line 237); returns capture group 1 (the real title after the metadata). -/
def pMetadataPrefix : List Char → Option (List Char) :=
  litCI "by".data <| chMany isSpaceC 1 <|
  litCI "sharon".data <| chMany isSpaceC 1 <|
  litCI "machlis".data <| chMany isSpaceC 1 <|
  chMany isWordC 1 <| chMany isSpaceC 1 <| chMany isDigitC 1 <|
  litC ',' <| chMany isSpaceC 1 <| chExact isDigitC 4 <|
  chMany isSpaceC 1 <| chMany isDigitC 1 <| chMany isSpaceC 1 <|
  litCI "min".data <| optCI 's' <| chMany isSpaceC 1 <|
  chManyCap isDotC 1 (fun cap _ => some cap)

/-- Category alternatives of the line-243 strip (in source order). -/
def cleanupCats9 : List (List Char) :=
  ["generative ai".data, "natural language processing".data,
   "r language".data, "technology industry".data, "developer".data,
   "analytics".data, "data science".data, "programming".data,
   "software development".data]

/-- Category alternatives of the line-270 strip (in source order). -/
def cleanupCats19 : List (List Char) :=
  cleanupCats9 ++
  ["ai".data, "machine learning".data, "cloud computing".data,
   "devops".data, "cybersecurity".data, "web development".data,
   "mobile development".data, "blockchain".data, "iot".data,
   "big data".data]

/-- `/\s*(cat₁|…|catₙ)$/gi`: trailing category tag. -/
def pCatsEnd (ws : List (List Char)) : List Char → Option (List Char) :=
  chMany isSpaceC 0 <| altLitsCI ws atEnd

/-- `/^By\s+Sharon\s+Machlis/i` (line 247 test). -/
def pStartsBySM : List Char → Option (List Char) :=
  litCI "by".data <| chMany isSpaceC 1 <|
  litCI "sharon".data <| chMany isSpaceC 1 <|
  litCI "machlis".data anyRest

/-- `/^By\s+Sharon\s+Machlis\s*/i` (cleanup pattern 1, line 267). -/
def pBylineStart : List Char → Option (List Char) :=
  litCI "by".data <| chMany isSpaceC 1 <|
  litCI "sharon".data <| chMany isSpaceC 1 <|
  litCI "machlis".data <| chMany isSpaceC 0 anyRest

/-- `/\s*\d+\s+mins?\s*$/i` (cleanup pattern 2, line 268). -/
def pMinsEnd : List Char → Option (List Char) :=
  chMany isSpaceC 0 <| chMany isDigitC 1 <| chMany isSpaceC 1 <|
  litCI "min".data <| optCI 's' <| chMany isSpaceC 0 atEnd

/-- `/\s*\w+\s+\d+,\s+\d{4}\s*$/` (cleanup pattern 3, line 269). -/
def pDateEnd : List Char → Option (List Char) :=
  chMany isSpaceC 0 <| chMany isWordC 1 <| chMany isSpaceC 1 <|
  chMany isDigitC 1 <| litC ',' <| chMany isSpaceC 1 <|
  chExact isDigitC 4 <| chMany isSpaceC 0 atEnd

/-- `/Read more.*$/i` (cleanup pattern 5, line 271). -/
def pReadMore : List Char → Option (List Char) :=
  litCI "read more".data <| chMany isDotC 0 atEnd

/-- `/\s+/g` (cleanup pattern 6, line 272). -/
def pWsRun : List Char → Option (List Char) :=
  chMany isSpaceC 1 anyRest

/-- `/\s+\w+\s+\d+,\s+\d{4}/` (metadata indicator 1, line 281). -/
def pInd1 : List Char → Option (List Char) :=
  chMany isSpaceC 1 <| chMany isWordC 1 <| chMany isSpaceC 1 <|
  chMany isDigitC 1 <| litC ',' <| chMany isSpaceC 1 <|
  chExact isDigitC 4 anyRest

/-- `/\s+\d+\s+mins?/i` (metadata indicator 2, line 282). -/
def pInd2 : List Char → Option (List Char) :=
  chMany isSpaceC 1 <| chMany isDigitC 1 <| chMany isSpaceC 1 <|
  litCI "min".data <| optCI 's' anyRest

/-- `/\s+By\s+/i` (metadata indicator 3, line 283). -/
def pInd3 : List Char → Option (List Char) :=
  chMany isSpaceC 1 <| litCI "by".data <| chMany isSpaceC 1 anyRest

/-- `/^\d+$/` (lines 255 and 294). -/
def jsMatchAllDigits (l : List Char) : Bool :=
  !l.isEmpty && l.all isDigitC

/-- `/^(By|mins?|Jan|Feb|Mar|Apr|May|Jun|Jul|Aug|Sep|Oct|Nov|Dec)\s/i`
(line 294): title still looks like bare metadata. -/
def pGuardKw : List Char → Option (List Char) :=
  altLitsCI
    ["by".data, "mins".data, "min".data, "jan".data, "feb".data, "mar".data,
     "apr".data, "may".data, "jun".data, "jul".data, "aug".data, "sep".data,
     "oct".data, "nov".data, "dec".data]
    (chOne isSpaceC anyRest)

/-! ## URL-slug fallback title (lines 249–262) -/

/-- `word.charAt(0).toUpperCase() + word.slice(1).toLowerCase()`. -/
def titleCaseWord (w : List Char) : List Char :=
  match w with
  | [] => []
  | c :: rest => c.toUpper :: rest.map Char.toLower

/-- `slug.split(' ').map(titleCaseWord).join(' ')` (lines 257–259). -/
def titleCaseWords (l : List Char) : List Char :=
  (((splitOnC ' ' l).map titleCaseWord).intersperse [' ']).flatten

/-- `urlParts[urlParts.length-1]?.replace('.html','')` followed by the
global replacement of hyphens with spaces (lines 252–254). -/
def slugOfHref (url : List Char) : List Char :=
  let parts := splitOnC '/' url
  let last := parts.getLastD []
  (replaceFirstSub ".html".data [] last).map (fun c => if c = '-' then ' ' else c)

/-! ## The title cleanup pass (scraper.js lines 232–299) -/

/-- One `metadataIndicators` step (lines 286–291): truncate the title at the
leftmost match of the indicator, provided `match.index && match.index > 10`
(JS: index `0` is falsy, so only indices `> 10` truncate). -/
def indicatorCut (M : List Char → Option (List Char)) (t : List Char) :
    List Char :=
  match findFirst M t with
  | some (b, _) => if b.length != 0 && b.length > 10 then jsTrimL (t.take b.length) else t
  | none => t

/-- The final guard (lines 294–299): a too-short or metadata-shaped title
becomes the "Untitled Article" sentinel. -/
def finalizeTitle (t : List Char) : List Char :=
  if t.length < 5 || jsMatchAllDigits t || (pGuardKw t).isSome then
    "Untitled Article".data
  else t

/-- The full title cleanup of `scrapeInfoWorldProfile` (lines 232–299):
from the selected raw title and the candidate's href to the final title
(before the `substring(0, 200)` cap applied at push time). -/
def cleanTitleL (raw url : List Char) : List Char :=
  let t0 := jsTrimL (replaceAtStart pLeadingBylineWipe [] raw)
  let t1 :=
    match pMetadataPrefix t0 with
    | some cap =>
      if cap.isEmpty then t0
      else jsTrimL (replaceAll (pCatsEnd cleanupCats9) [] (jsTrimL cap))
    | none => t0
  let t2 :=
    if (pStartsBySM t1).isSome then
      let slug := slugOfHref url
      if !slug.isEmpty && !jsMatchAllDigits slug then titleCaseWords slug else t1
    else t1
  let t3 := jsTrimL (replaceAtStart pBylineStart [' '] t2)
  let t4 := jsTrimL (replaceFirst pMinsEnd [' '] t3)
  let t5 := jsTrimL (replaceFirst pDateEnd [' '] t4)
  let t6 := jsTrimL (replaceAll (pCatsEnd cleanupCats19) [' '] t5)
  let t7 := jsTrimL (replaceFirst pReadMore [' '] t6)
  let t8 := jsTrimL (replaceAll pWsRun [' '] t7)
  let t9 := indicatorCut pInd3 (indicatorCut pInd2 (indicatorCut pInd1 t8))
  finalizeTitle t9

def cleanTitle (raw url : String) : String :=
  String.mk (cleanTitleL raw.data url.data)

/-! ## Description cleanup (scraper.js lines 339–352) -/

/-- `/^By\s+[\w\s]+\s+\w+\s+\d+,\s+\d{4}.*?(?=\w)/i` (line 340): strip a
leading byline from the description; the lazy `.*?` stops at the first word
character (the lookahead does not consume it). -/
def pDescByline : List Char → Option (List Char) :=
  litCI "by".data <| chMany isSpaceC 1 <|
  chMany (fun c => isWordC c || isSpaceC c) 1 <| chMany isSpaceC 1 <|
  chMany isWordC 1 <| chMany isSpaceC 1 <| chMany isDigitC 1 <|
  litC ',' <| chMany isSpaceC 1 <| chExact isDigitC 4 <|
  chManyLazy isDotC 0 (fun r =>
    match r with
    | c :: _ => if isWordC c then some r else none
    | [] => none)

/-- Lines 339–352: byline strip, short/placeholder discard, 497+ellipsis
truncation. -/
def processDescriptionL (d : List Char) : List Char :=
  let d1 := jsTrimL (replaceAtStart pDescByline [] d)
  let d2 :=
    if d1.length < 20
        || containsL "click to read".data (toLowerL d1)
        || containsL "read more".data (toLowerL d1) then []
    else d1
  if d2.length > 500 then d2.take 497 ++ "...".data else d2

/-! ## Date extraction (scraper.js lines 354–372) -/

/-- `/(Jan|Feb|Mar|Apr|May|Jun|Jul|Aug|Sep|Oct|Nov|Dec)\s+\d{1,2},\s+\d{4}/i`
(line 367). -/
def monthLits : List (List Char) :=
  ["jan".data, "feb".data, "mar".data, "apr".data, "may".data, "jun".data,
   "jul".data, "aug".data, "sep".data, "oct".data, "nov".data, "dec".data]

/-- Greedy `p{lo,hi}`. -/
def chRange (p : Char → Bool) (lo hi : Nat) (k : List Char → Option α)
    (l : List Char) : Option α :=
  let mx := min hi ((l.takeWhile p).length)
  tryDown (fun n => k (l.drop n)) lo mx

def pMonthDate : List Char → Option (List Char) :=
  altLitsCI monthLits <| chMany isSpaceC 1 <| chRange isDigitC 1 2 <|
  litC ',' <| chMany isSpaceC 1 <| chExact isDigitC 4 anyRest

/-! ## Per-candidate field selection

The DOM queries themselves (which element supplies which text) are the
render collaborator's side; a `Candidate` carries the strings those queries
return, exactly the data `page.evaluate` reads from each element. -/

structure Candidate where
  /-- `parentContainer?.querySelector('h1,…,h6')` text, when present. -/
  headingText : Option String
  /-- `[class*="title"], [class*="headline"]` element text, when present. -/
  titleClassText : Option String
  /-- `element.getAttribute('title')`. -/
  titleAttr : Option String
  /-- `element.getAttribute('aria-label')`. -/
  ariaLabel : Option String
  /-- `element.textContent`. -/
  anchorText : String
  /-- The (absolutized) link target. -/
  href : String
  /-- Texts of elements matching the description selectors, in selector
  order (absent selectors contribute nothing). -/
  descTexts : List String
  /-- First paragraph text, when present. -/
  paraText : Option String
  /-- The date element, when present: its `datetime` attribute (if any)
  and its text content. -/
  dateElem : Option (Option String × String)
  /-- `parentContainer.textContent`. -/
  containerText : String
deriving Repr, DecidableEq

/-- Title source selection (lines 202–230). -/
def initialTitle (c : Candidate) : String :=
  let t1 := match c.headingText with | some s => jsTrim s | none => ""
  let t2 :=
    if t1 ≠ "" then t1
    else match c.titleClassText with | some s => jsTrim s | none => ""
  let t3 :=
    if t2 ≠ "" then t2
    else
      match c.titleAttr with
      | some a =>
        if a ≠ "" then a else (match c.ariaLabel with | some b => b | none => "")
      | none => (match c.ariaLabel with | some b => b | none => "")
  if t3 ≠ "" then t3
  else
    let t := jsTrim c.anchorText
    if t ≠ "" then t else "Untitled Article"

/-- Description source selection (lines 306–337): first selector text
longer than 20 chars wins, else the last found one; a too-short result
falls back to the first paragraph. -/
def pickDescAux : List String → String → String
  | [], acc => acc
  | s :: rest, _ =>
    let t := jsTrim s
    if t ≠ "" && t.length > 20 then t else pickDescAux rest t

def pickDescription (c : Candidate) : String :=
  let d := pickDescAux c.descTexts ""
  if d = "" || d.length < 20 then
    match c.paraText with
    | some p => jsTrim p
    | none => d
  else d

/-- Date selection (lines 354–372): `datetime` attribute, else date-element
text, else the first month-day-year pattern in the container text. -/
def initialDate (c : Candidate) : String :=
  let pd :=
    match c.dateElem with
    | some (attr, txt) =>
      match attr with
      | some a => if a ≠ "" then a else jsTrim txt
      | none => jsTrim txt
    | none => ""
  if pd = "" then
    match findFirst pMonthDate c.containerText.data with
    | some (b, a) =>
      String.mk ((c.containerText.data.drop b.length).take
        (c.containerText.data.length - b.length - a.length))
    | none => ""
  else pd

/-! ## Author / section filtering (scraper.js lines 158–199) -/

/-- Negative lookahead `(?!P)`. -/
def negLook (P : List Char → Option (List Char))
    (k : List Char → Option α) (l : List Char) : Option α :=
  if (P l).isSome then none else k l

/-- `Sharon\s+Machlis` (the lookahead body). -/
def pSharonM : List Char → Option (List Char) :=
  litCI "sharon".data <| chMany isSpaceC 1 <| litCI "machlis".data anyRest

/-- `/by\s+(?!Sharon\s+Machlis)[\w\s]+/i` (line 166). -/
def pOtherBy : List Char → Option (List Char) :=
  litCI "by".data <| chMany isSpaceC 1 <| negLook pSharonM <|
  chMany (fun c => isWordC c || isSpaceC c) 1 anyRest

/-- `/author:\s*(?!Sharon\s+Machlis)[\w\s]+/i` (line 167). -/
def pOtherAuthor : List Char → Option (List Char) :=
  litCI "author:".data <| chMany isSpaceC 0 <| negLook pSharonM <|
  chMany (fun c => isWordC c || isSpaceC c) 1 anyRest

/-- `/from\s+(?!Sharon\s+Machlis)[\w\s]+/i` (line 168). -/
def pOtherFrom : List Char → Option (List Char) :=
  litCI "from".data <| chMany isSpaceC 1 <| negLook pSharonM <|
  chMany (fun c => isWordC c || isSpaceC c) 1 anyRest

def hasOtherAuthor (containerText : String) : Bool :=
  (findFirst pOtherBy containerText.data).isSome
  || (findFirst pOtherAuthor containerText.data).isSome
  || (findFirst pOtherFrom containerText.data).isSome

/-- Section-marker phrases (lines 180–190). -/
def skipPhrases : List String :=
  ["more from infoworld", "trending", "popular", "recommended",
   "you might also like", "related articles", "also on infoworld",
   "from our partners", "sponsored"]

def hasSkipPhrase (containerText : String) : Bool :=
  skipPhrases.any (fun p => containsL p.data (toLowerL containerText.data))

/-- Lines 146–148 and 158–199: keep a candidate only if its URL looks like
an article URL and its container neither names another author nor sits in
a skipped section. -/
def keepCandidate (c : Candidate) : Bool :=
  containsS c.href "/article/"
  && !hasOtherAuthor c.containerText
  && !hasSkipPhrase c.containerText

/-- Line 375: only InfoWorld article URLs are pushed. -/
def pushGate (c : Candidate) : Bool :=
  containsS c.href "infoworld.com/article/"

/-! ## Article records and the extraction pipeline -/

structure Rec where
  title : String
  url : String
  description : String
  pubDate : String
  author : String
deriving Repr, DecidableEq

/-- Lines 376–382: the pushed record, with the `substring` caps. -/
def extractRecord (c : Candidate) : Rec :=
  { title := jsTakeS 200 (cleanTitle (initialTitle c) c.href)
    url := c.href
    description := jsTakeS 500 (String.mk (processDescriptionL (pickDescription c).data))
    pubDate := initialDate c
    author := "Sharon Machlis" }

/-- `Array.from(new Map(list.map(item => [item.url, item])).values())`
(lines 390, 420): JS `Map` keeps keys in first-insertion order and the
last value set for each key. -/
def jsMapDedup (l : List Rec) : List Rec :=
  l.foldl (fun acc r =>
    if acc.any (fun x => x.url = r.url) then
      acc.map (fun x => if x.url = r.url then r else x)
    else acc ++ [r]) []

def MAX_ARTICLES : Nat := 10

/-- The `page.evaluate` extraction body applied to the discovered
candidates (filter, extract, dedup — lines 137–392). -/
def extractArticles (cs : List Candidate) : List Rec :=
  jsMapDedup (((cs.filter (fun c => keepCandidate c && pushGate c)).map
    extractRecord))

/-- Line 398: `articles.slice(0, MAX_ARTICLES)`. -/
def mainOutput (cs : List Candidate) : List Rec :=
  (extractArticles cs).take MAX_ARTICLES

/-! ## The zero-candidates fallback path (scraper.js lines 405–421) -/

structure RawLink where
  text : String
  titleAttr : Option String
  href : String
deriving Repr, DecidableEq

/-- `link.textContent?.trim() || link.getAttribute('title') || 'Article'`
(line 411): no cleanup, no caps. -/
def fallbackTitle (ln : RawLink) : String :=
  let t := jsTrim ln.text
  if t ≠ "" then t
  else match ln.titleAttr with
    | some a => if a ≠ "" then a else "Article"
    | none => "Article"

/-- The fallback-path record (lines 410–416). -/
def fallbackRec (ln : RawLink) : Rec :=
  { title := fallbackTitle ln
    url := ln.href
    description := ""
    pubDate := ""
    author := "Sharon Machlis" }

/-- Lines 408–421: map, filter to InfoWorld article URLs, slice, dedup. -/
def fallbackArticles (ls : List RawLink) : List Rec :=
  jsMapDedup (((ls.map fallbackRec).filter
    (fun r => r.url ≠ "" && containsS r.url "infoworld.com/article/")).take
    MAX_ARTICLES)

/-! ## Candidate discovery (scraper.js lines 107–134 and part_002 37–61) -/

/-- A rendered document, as the discovery code sees it: the result of
`document.querySelectorAll` for each selector (elements as ids), plus the
set of links inside excluded sections (lines 77–103). -/
structure DocTree where
  sel : List (String × List Nat)
  excluded : List Nat
deriving Repr, DecidableEq

def querySelAll (d : DocTree) (s : String) : List Nat :=
  match d.sel.find? (fun p => p.1 = s) with
  | some p => p.2
  | none => []

/-- The ordered selector list of scraper.js (lines 108–116). -/
def scraperSelectors : List String :=
  ["main article a[href*=\"/article/\"]",
   "main .article-item",
   "main [class*=\"article-list\"] a[href*=\"/article/\"]",
   "[class*=\"author-articles\"] a[href*=\"/article/\"]",
   "[class*=\"profile\"] a[href*=\"/article/\"]",
   "section:not(aside) a[href*=\"/article/\"]",
   "a[href*=\"/article/\"]"]

/-- One `Set.add` of a non-excluded candidate (lines 122–127): JS `Set`
keeps first-insertion order and ignores re-insertions. -/
def addCand (d : DocTree) (acc : List Nat) (e : Nat) : List Nat :=
  if d.excluded.contains e then acc
  else if acc.contains e then acc
  else acc ++ [e]

/-- scraper.js discovery (lines 118–134): every selector is consulted and
non-excluded matches accumulate into one `Set` (first-insertion order). -/
def discoverUnion (d : DocTree) : List Nat :=
  scraperSelectors.foldl (fun acc s => (querySelAll d s).foldl (addCand d) acc) []

/-- The ordered selector list of part_002 (lines 38–46). -/
def part002Selectors : List String :=
  ["article", ".article-item", "[class*=\"article-list\"] a",
   "[class*=\"post-list\"] > *", "a[href*=\"/article/\"]",
   ".content-item", "[class*=\"story\"]"]

/-- part_002 discovery (lines 48–61): first selector with any matches
wins; if all are empty, a broader catch-all query is used. -/
def discoverFirst002 (d : DocTree) : List Nat :=
  match part002Selectors.find? (fun s => !(querySelAll d s).isEmpty) with
  | some s => querySelAll d s
  | none =>
    querySelAll d "a[href*=\"/article/\"], a[href*=\"/news/\"], a[href*=\"/feature/\"]"

/-- Modelled from the spec: "apply an ordered list of structural
strategies … and use the first strategy that yields any matches", over
scraper.js's ordered selector list — the behaviour claim C1 asserts for
the current scraper. -/
def firstNonEmptyStrategy (d : DocTree) : List Nat :=
  match scraperSelectors.find? (fun s => !(querySelAll d s).isEmpty) with
  | some s => querySelAll d s
  | none => []

/-! ## XML escaping (scraper.js lines 469–477) -/

/-- JS `s.replace(/x/g, repl)` for a single character `x`. -/
def repChar (c : Char) (repl : List Char) : List Char → List Char
  | [] => []
  | d :: l => (if d = c then repl else [d]) ++ repChar c repl l

/-- `escapeXml` (lines 469–477): five sequential global replacements,
ampersand first. -/
def escapeXmlL (l : List Char) : List Char :=
  repChar (Char.ofNat 39) "&apos;".data
    (repChar '"' "&quot;".data
      (repChar '>' "&gt;".data
        (repChar '<' "&lt;".data
          (repChar '&' "&amp;".data l))))

def escapeXmlS (s : String) : String := String.mk (escapeXmlL s.data)

/-! ## A standard XML text decoder (modelled from the spec)

Modelled from the spec: claim C5 measures the serializer against "a
standard XML parser".  `xmlDecode` decodes the five predefined entities in
ordinary element content; `parseElementText` additionally returns CDATA
section content verbatim, as a standard parser does. -/

mutual

def xmlDecode : List Char → List Char
  | [] => []
  | c :: rest => if c = '&' then decEnt rest else c :: xmlDecode rest
termination_by l => (l.length, 0)

def decEnt : List Char → List Char
  | 'a' :: 'm' :: 'p' :: ';' :: rest => '&' :: xmlDecode rest
  | 'l' :: 't' :: ';' :: rest => '<' :: xmlDecode rest
  | 'g' :: 't' :: ';' :: rest => '>' :: xmlDecode rest
  | 'q' :: 'u' :: 'o' :: 't' :: ';' :: rest => '"' :: xmlDecode rest
  | 'a' :: 'p' :: 'o' :: 's' :: ';' :: rest => Char.ofNat 39 :: xmlDecode rest
  | l => '&' :: xmlDecode l
termination_by l => (l.length, 1)

end

/-- `<![CDATA[` … `]]>` wrapping used for the description element. -/
def cdataWrap (e : List Char) : List Char :=
  "<![CDATA[".data ++ e ++ "]]>".data

/-- Modelled from the spec: the text value a standard XML parser assigns to
element content — CDATA content is literal, ordinary content has its
entities decoded. -/
def parseElementText (l : List Char) : List Char :=
  if isPrefixL "<![CDATA[".data l && endsWithL "]]>".data l
      && Nat.ble 12 l.length then
    (l.drop 9).take (l.length - 12)
  else xmlDecode l

/-! ## Publish date resolution (scraper.js lines 505–547)

`new Date(string)` parsing and `toUTCString` formatting are host
facilities; they enter as explicit parameters `parseD` (returns the
timestamp for strings the host can parse) and `fmtD`.  `new Date(y, m, d)`
construction is `mkD` (always valid for integer arguments, so the
`isNaN` re-check never fires).  Timestamps are `Int` milliseconds;
`setDate(getDate() - k)` is subtraction of `k` days. -/

def dayMs : Int := 86400000

def monthNames : List String :=
  ["Jan", "Feb", "Mar", "Apr", "May", "Jun",
   "Jul", "Aug", "Sep", "Oct", "Nov", "Dec"]

/-- `parseInt` on a digit string. -/
def digitsToNat (l : List Char) : Nat :=
  l.foldl (fun a c => a * 10 + (c.toNat - 48)) 0

/-- Greedy `p{lo,hi}` with capture. -/
def chRangeCap (p : Char → Bool) (lo hi : Nat)
    (k : List Char → List Char → Option α) (l : List Char) : Option α :=
  let mx := min hi ((l.takeWhile p).length)
  tryDown (fun n => k (l.take n) (l.drop n)) lo mx

/-- `p{n}` with capture. -/
def chExactCap (p : Char → Bool) (n : Nat)
    (k : List Char → List Char → Option α) (l : List Char) : Option α :=
  if (l.take n).length = n && (l.take n).all p then k (l.take n) (l.drop n)
  else none

/-- `/(\w+)\s+(\d{1,2}),\s+(\d{4})/` (line 520), with its three captures:
month word, day, year. -/
def pMonthTriple : List Char → Option (String × Nat × Nat) :=
  chManyCap isWordC 1 (fun w r =>
    chMany isSpaceC 1 (fun r2 =>
      chRangeCap isDigitC 1 2 (fun dd r3 =>
        match r3 with
        | ',' :: r4 =>
          chMany isSpaceC 1 (fun r5 =>
            chExactCap isDigitC 4
              (fun yy _ => some (String.mk w, digitsToNat dd, digitsToNat yy))
              r5) r4
        | _ => none) r2) r)

/-- Leftmost match for a capturing matcher. -/
def findFirstCap (M : List Char → Option α) : List Char → Option α
  | [] => M []
  | c :: l =>
    match M (c :: l) with
    | some a => some a
    | none => findFirstCap M l

/-- Lines 505–547: the timestamp serialized for the record at `index`.
The `catch` block of the source (staggered dates on a parse *exception*)
is unreachable — `new Date(string)` never throws — so a non-empty
unparseable date keeps the channel build time `nowMs`; only a falsy
(empty) date string takes the staggered `now − index·7 days` branch. -/
def resolvePubDateT (parseD : String → Option Int)
    (mkD : Nat → Nat → Nat → Int) (nowMs : Int) (index : Nat)
    (pd : String) : Int :=
  if pd = "" then nowMs - (index * 7 : Nat) * dayMs
  else
    match parseD pd with
    | some t => t
    | none =>
      match findFirstCap pMonthTriple pd.data with
      | some (m, dd, yy) =>
        match monthNames.indexOf? m with
        | some mi => mkD yy mi dd
        | none => nowMs
      | none => nowMs

/-! ## RSS document construction (scraper.js lines 465–565) -/

/-- The channel header up to the escaped profile URL (lines 479–483). -/
def rssHeaderA : String :=
  "<?xml version=\"1.0\" encoding=\"UTF-8\"?>\n<rss version=\"2.0\" xmlns:atom=\"http://www.w3.org/2005/Atom\" xmlns:dc=\"http://purl.org/dc/elements/1.1/\">\n  <channel>\n    <title>Sharon Machlis - InfoWorld Articles</title>\n    <link>"

/-- Between the profile URL and the build date (lines 483–486). -/
def rssHeaderB : String :=
  "</link>\n    <description>Latest articles by Sharon Machlis on InfoWorld - Automatically generated RSS feed</description>\n    <language>en-us</language>\n    <lastBuildDate>"

/-- After the build date, to the end of the channel preamble
(lines 486–490). -/
def rssHeaderC : String :=
  "</lastBuildDate>\n    <generator>GitHub Actions RSS Generator</generator>\n    <ttl>10080</ttl>\n    <atom:link href=\"https://raw.githubusercontent.com/YOUR_USERNAME/YOUR_REPO/main/feed.xml\" rel=\"self\" type=\"application/rss+xml\" />\n"

def rssFooter : String := "\n  </channel>\n</rss>"

/-- The item template (lines 549–557). -/
def rssItem (title url description author pubDate : String) : String :=
  "\n    <item>\n      <title>" ++ title ++ "</title>\n      <link>" ++ url
  ++ "</link>\n      <description><![CDATA[" ++ description
  ++ "]]></description>\n      <dc:creator>" ++ author
  ++ "</dc:creator>\n      <pubDate>" ++ pubDate
  ++ "</pubDate>\n      <guid isPermaLink=\"true\">" ++ url
  ++ "</guid>\n    </item>"

/-- Line 499: the default description substituted for an absent or
too-short one. -/
def defaultDescription (title : String) : String :=
  "Read the article \"" ++ title ++ "\" by Sharon Machlis on InfoWorld."

/-- Lines 496–501: the description actually embedded (pre-escaping). -/
def effectiveDescription (a : Rec) : String :=
  if a.description = "" || a.description.length < 10 then
    defaultDescription a.title
  else a.description

/-- Lines 492–557: one serialized item.  The channel `now` string is
`fmtD nowMs` (the source captures `new Date()` once as a UTC string and
again for staggering; both denote the build instant). -/
def itemOfArticle (parseD : String → Option Int)
    (mkD : Nat → Nat → Nat → Int) (fmtD : Int → String) (nowMs : Int)
    (index : Nat) (a : Rec) : String :=
  let title := escapeXmlS (if a.title = "" then "Article " ++ toString (index + 1) else a.title)
  let url := escapeXmlS a.url
  let description := escapeXmlS (effectiveDescription a)
  let author := escapeXmlS (if a.author = "" then "Sharon Machlis" else a.author)
  let pubDate := fmtD (resolvePubDateT parseD mkD nowMs index a.pubDate)
  rssItem title url description author pubDate

/-- `generateRSS` (lines 465–565). -/
def generateRSS (parseD : String → Option Int)
    (mkD : Nat → Nat → Nat → Int) (fmtD : Int → String) (nowMs : Int)
    (articles : List Rec) (profileUrl : String) : String :=
  rssHeaderA ++ escapeXmlS profileUrl ++ rssHeaderB ++ fmtD nowMs
  ++ rssHeaderC
  ++ String.join (articles.enum.map (fun p => itemOfArticle parseD mkD fmtD nowMs p.1 p.2))
  ++ rssFooter

/-- The profile URL `main` uses (line 569). -/
def mainProfileUrl : String := "https://www.infoworld.com/profile/sharon-machlis/"

/-- The placeholder record of `main`'s empty-articles branch
(lines 587–593); its `pubDate` is the build instant's UTC string. -/
def emptyFeedPlaceholder (profileUrl nowStr : String) : Rec :=
  { title := "Feed Generation Notice"
    url := profileUrl
    description := "The RSS feed generator could not find articles. Please check the source page."
    pubDate := nowStr
    author := "System" }

/-- `main`'s minimal feed when no articles were found (lines 582–598). -/
def mainEmptyFeed (parseD : String → Option Int)
    (mkD : Nat → Nat → Nat → Int) (fmtD : Int → String) (nowMs : Int)
    (nowStr : String) : String :=
  generateRSS parseD mkD fmtD nowMs
    [emptyFeedPlaceholder mainProfileUrl nowStr] mainProfileUrl

/-! ## A well-formedness checker for the emitted markup
(modelled from the spec)

Modelled from the spec: claims C9's "well-formed syndication document,
never malformed markup".  A char-by-char tag-balance machine: element tags
must nest properly, declarations (`<? … ?>`) and self-closing tags are
skipped, CDATA sections are opaque character data.  (Attribute values and
CDATA bodies containing `>` are beyond what the generator emits — every
embedded field is escaped — so the machine may treat `>` as a tag
terminator outside CDATA.) -/

structure WFSt where
  stack : List (List Char)
  buf : Option (List Char)
deriving Repr, DecidableEq

def tagName (b : List Char) : List Char := b.takeWhile (fun c => !isSpaceC c)

/-- Resolve a complete tag buffer against the open-element stack. -/
def processTag (b : List Char) (stack : List (List Char)) :
    Option (List (List Char)) :=
  match b with
  | '?' :: _ => if endsWithL ['?'] b then some stack else none
  | '/' :: name =>
    match stack with
    | top :: rest => if top = name then some rest else none
    | [] => none
  | '!' :: _ => some stack
  | [] => none
  | _ => if endsWithL ['/'] b then some stack else some (tagName b :: stack)

def wfStep (s : WFSt) (c : Char) : Option WFSt :=
  match s.buf with
  | none => if c = '<' then some ⟨s.stack, some []⟩ else some s
  | some b =>
    if isPrefixL "![CDATA[".data b then
      if c = '>' && endsWithL "]]".data b then some ⟨s.stack, none⟩
      else some ⟨s.stack, some (b ++ [c])⟩
    else if c = '>' then
      (processTag b s.stack).map (fun st => ⟨st, none⟩)
    else some ⟨s.stack, some (b ++ [c])⟩

def runWF : List Char → WFSt → Option WFSt
  | [], s => some s
  | c :: l, s =>
    match wfStep s c with
    | some s2 => runWF l s2
    | none => none

def wfInit : WFSt := ⟨[], none⟩

def wellFormedXml (s : String) : Bool :=
  match runWF s.data wfInit with
  | some st => st.stack.isEmpty && st.buf.isNone
  | none => false

/-! ## Lemmas about `jsMapDedup` -/

/-- One `Map.set` step of the dedup fold. -/
def dedupStep (acc : List Rec) (r : Rec) : List Rec :=
  if acc.any (fun x => x.url = r.url) then
    acc.map (fun x => if x.url = r.url then r else x)
  else acc ++ [r]

theorem jsMapDedup_eq_foldl (l : List Rec) :
    jsMapDedup l = l.foldl dedupStep [] := rfl

theorem dedupStep_pairwise (acc : List Rec) (r : Rec)
    (h : acc.Pairwise (fun a b => a.url ≠ b.url)) :
    (dedupStep acc r).Pairwise (fun a b => a.url ≠ b.url) := by
  unfold dedupStep
  split
  · rw [List.pairwise_map]
    refine h.imp_of_mem (fun {a b} ha hb hab => ?_)
    by_cases h1 : a.url = r.url <;> by_cases h2 : b.url = r.url <;>
      simp [h1, h2] at hab ⊢ <;> simp_all
  · next hnone =>
    rw [List.pairwise_append]
    refine ⟨h, List.pairwise_singleton _ _, ?_⟩
    intro a ha b hb
    simp at hb
    subst hb
    intro hab
    exact hnone (List.any_eq_true.mpr ⟨a, ha, by simp [hab]⟩)

theorem foldl_dedupStep_pairwise (l acc : List Rec)
    (h : acc.Pairwise (fun a b => a.url ≠ b.url)) :
    (l.foldl dedupStep acc).Pairwise (fun a b => a.url ≠ b.url) := by
  induction l generalizing acc with
  | nil => exact h
  | cons r l ih => exact ih _ (dedupStep_pairwise acc r h)

/-- Records out of the JS `Map` dedup have pairwise distinct URLs. -/
theorem jsMapDedup_pairwise (l : List Rec) :
    (jsMapDedup l).Pairwise (fun a b => a.url ≠ b.url) := by
  rw [jsMapDedup_eq_foldl]
  exact foldl_dedupStep_pairwise l [] List.Pairwise.nil

/-- Dedup of an already URL-distinct list is the identity. -/
theorem foldl_dedupStep_of_disjoint (l : List Rec) :
    ∀ acc : List Rec, l.Pairwise (fun a b => a.url ≠ b.url) →
    (∀ a ∈ acc, ∀ b ∈ l, a.url ≠ b.url) →
    l.foldl dedupStep acc = acc ++ l := by
  induction l with
  | nil => simp
  | cons r l ih =>
    intro acc hp hd
    have hnone : acc.any (fun x => x.url = r.url) = false := by
      rw [List.any_eq_false]
      intro a ha
      simp [hd a ha r (by simp)]
    have step : dedupStep acc r = acc ++ [r] := by
      unfold dedupStep
      rw [hnone]
      simp
    rw [List.foldl_cons, step,
      ih (acc ++ [r]) hp.of_cons ?_, List.append_assoc]
    · rfl
    · intro a ha b hb
      rcases List.mem_append.mp ha with h1 | h1
      · exact hd a h1 b (by simp [hb])
      · simp at h1
        subst h1
        exact (List.pairwise_cons.mp hp).1 b hb

theorem jsMapDedup_of_pairwise (l : List Rec)
    (h : l.Pairwise (fun a b => a.url ≠ b.url)) : jsMapDedup l = l := by
  rw [jsMapDedup_eq_foldl, foldl_dedupStep_of_disjoint l [] h (by simp)]
  rfl

/-- Every record the dedup emits was one of its input records. -/
theorem jsMapDedup_forall (p : Rec → Prop) (l : List Rec)
    (h : ∀ x ∈ l, p x) : ∀ x ∈ jsMapDedup l, p x := by
  rw [jsMapDedup_eq_foldl]
  suffices h2 : ∀ acc : List Rec, (∀ x ∈ acc, p x) →
      ∀ x ∈ l.foldl dedupStep acc, p x by
    exact h2 [] (by simp)
  induction l with
  | nil => intro acc hacc; simpa using hacc
  | cons r l ih =>
    intro acc hacc
    rw [List.foldl_cons]
    refine ih (fun x hx => h x (List.mem_cons_of_mem r hx)) (dedupStep acc r) ?_
    intro x hx
    unfold dedupStep at hx
    split at hx
    · rcases List.mem_map.mp hx with ⟨y, hy, hxy⟩
      by_cases hy2 : y.url = r.url
      · simp [hy2] at hxy
        exact hxy ▸ h r (by simp)
      · simp [hy2] at hxy
        exact hxy ▸ hacc y hy
    · rcases List.mem_append.mp hx with h1 | h1
      · exact hacc x h1
      · simp at h1
        exact h1 ▸ h r (by simp)

/-- C6: no two records of the Extractor's output (main path and
zero-candidates fallback path alike) share a `url`. -/
theorem records_unique_by_url :
    (∀ cs : List Candidate,
      (mainOutput cs).Pairwise (fun a b => a.url ≠ b.url))
    ∧ (∀ ls : List RawLink,
      (fallbackArticles ls).Pairwise (fun a b => a.url ≠ b.url)) := by
  constructor
  · intro cs
    exact (jsMapDedup_pairwise _).sublist (List.take_sublist _ _)
  · intro ls
    exact jsMapDedup_pairwise _

/-- C8: with 60 URL-distinct extracted candidates and `MAX_ARTICLES = 10`,
the output is exactly the first 10 in discovery order. -/
theorem sixty_candidates_truncated (recs : List Rec)
    (hp : recs.Pairwise (fun a b => a.url ≠ b.url))
    (hlen : recs.length = 60) :
    ((jsMapDedup recs).take MAX_ARTICLES).length = 10
    ∧ (jsMapDedup recs).take MAX_ARTICLES = recs.take 10 := by
  rw [jsMapDedup_of_pairwise recs hp]
  constructor
  · rw [List.length_take, hlen]
    rfl
  · rfl

/-- A 60-record URL-distinct witness list. -/
def sixtyRecs : List Rec :=
  (List.range 60).map (fun i =>
    { title := "Title", url := toString i, description := "",
      pubDate := "", author := "Sharon Machlis" })

theorem sixty_candidates_truncated_witness :
    sixtyRecs.Pairwise (fun a b => a.url ≠ b.url)
    ∧ sixtyRecs.length = 60
    ∧ ((jsMapDedup sixtyRecs).take MAX_ARTICLES).length = 10
    ∧ (jsMapDedup sixtyRecs).take MAX_ARTICLES = sixtyRecs.take 10 := by
  refine ⟨by decide, by decide, ?_⟩
  have h := sixty_candidates_truncated sixtyRecs (by decide) (by decide)
  exact ⟨h.1, h.2⟩

/-! ## Lemmas about candidate discovery (claim C1) -/

theorem mem_addCand (d : DocTree) (acc : List Nat) (e a : Nat) :
    a ∈ addCand d acc e
    ↔ a ∈ acc ∨ (e ∉ d.excluded ∧ a = e) := by
  unfold addCand
  split
  · next h =>
    have h2 : e ∈ d.excluded := List.elem_iff.mp h
    simp [h2]
  · next h =>
    have h3 : e ∉ d.excluded := fun hm => h (List.elem_iff.mpr hm)
    split
    · next h2 =>
      have h4 : e ∈ acc := List.elem_iff.mp h2
      simp only [h3, not_false_iff, true_and]
      constructor
      · intro ha; exact Or.inl ha
      · rintro (ha | ha)
        · exact ha
        · exact ha ▸ h4
    · simp [h3]

theorem nodup_addCand (d : DocTree) (acc : List Nat) (e : Nat)
    (h : acc.Nodup) : (addCand d acc e).Nodup := by
  unfold addCand
  split
  · exact h
  · split
    · exact h
    · next h2 =>
      rw [List.nodup_append]
      refine ⟨h, List.nodup_singleton _, ?_⟩
      intro a ha hae
      simp at hae
      exact h2 (hae ▸ List.elem_iff.mpr ha)

theorem mem_foldl_addCand (d : DocTree) (es : List Nat) :
    ∀ (acc : List Nat) (a : Nat),
    a ∈ es.foldl (addCand d) acc
    ↔ a ∈ acc ∨ (a ∉ d.excluded ∧ a ∈ es) := by
  induction es with
  | nil => simp
  | cons e es ih =>
    intro acc a
    rw [List.foldl_cons, ih, mem_addCand]
    constructor
    · rintro ((h | ⟨h1, h2⟩) | ⟨h1, h2⟩)
      · exact Or.inl h
      · exact Or.inr ⟨h2 ▸ h1, h2 ▸ List.mem_cons_self e es⟩
      · exact Or.inr ⟨h1, List.mem_cons_of_mem e h2⟩
    · rintro (h | ⟨h1, h2⟩)
      · exact Or.inl (Or.inl h)
      · rcases List.mem_cons.mp h2 with h3 | h3
        · exact Or.inl (Or.inr ⟨h3 ▸ h1, h3⟩)
        · exact Or.inr ⟨h1, h3⟩

theorem nodup_foldl_addCand (d : DocTree) (es : List Nat) :
    ∀ acc : List Nat, acc.Nodup → (es.foldl (addCand d) acc).Nodup := by
  induction es with
  | nil => intro acc h; exact h
  | cons e es ih => intro acc h; exact ih _ (nodup_addCand d acc e h)

theorem mem_discover_foldl (d : DocTree) (ss : List String) :
    ∀ (acc : List Nat) (a : Nat),
    a ∈ ss.foldl (fun acc s => (querySelAll d s).foldl (addCand d) acc) acc
    ↔ a ∈ acc
      ∨ (a ∉ d.excluded ∧ ∃ s ∈ ss, a ∈ querySelAll d s) := by
  induction ss with
  | nil => simp
  | cons s ss ih =>
    intro acc a
    rw [List.foldl_cons, ih, mem_foldl_addCand]
    constructor
    · rintro ((h | ⟨h1, h2⟩) | ⟨h1, s2, hs2, h2⟩)
      · exact Or.inl h
      · exact Or.inr ⟨h1, s, List.mem_cons_self s ss, h2⟩
      · exact Or.inr ⟨h1, s2, List.mem_cons_of_mem s hs2, h2⟩
    · rintro (h | ⟨h1, s2, hs2, h2⟩)
      · exact Or.inl (Or.inl h)
      · rcases List.mem_cons.mp hs2 with h3 | h3
        · exact Or.inl (Or.inr ⟨h1, h3 ▸ h2⟩)
        · exact Or.inr ⟨h1, s2, h3, h2⟩

/-- A document on which the first scraper selector already matches but the
catch-all selector matches a further element. -/
def exDocC1 : DocTree :=
  { sel := [("main article a[href*=\"/article/\"]", [1]),
            ("a[href*=\"/article/\"]", [1, 2])]
    excluded := [] }

/-- C1 counterexample: scraper.js's discovery is *not* a first-non-empty
fall-through — with the first strategy non-empty it still accumulates the
later catch-all strategy's extra matches. -/
theorem discovery_not_first_nonempty :
    firstNonEmptyStrategy exDocC1 = [1]
    ∧ discoverUnion exDocC1 = [1, 2]
    ∧ discoverUnion exDocC1 ≠ firstNonEmptyStrategy exDocC1 := by
  refine ⟨by decide, by decide, by decide⟩

/-- C1 amended: scraper.js consults *every* selector strategy and returns
the duplicate-free union of all non-excluded matches (first-insertion
order); the first-non-empty fall-through behaviour belongs to the earlier
revision part_002, whose discovery uses the first selector with matches
and a catch-all only when all strategies are empty. -/
theorem discovery_union_semantics :
    (∀ (d : DocTree), (discoverUnion d).Nodup
      ∧ ∀ a : Nat, (a ∈ discoverUnion d
        ↔ a ∉ d.excluded
          ∧ ∃ s ∈ scraperSelectors, a ∈ querySelAll d s))
    ∧ (∀ (d : DocTree) (s : String),
        part002Selectors.find? (fun s => !(querySelAll d s).isEmpty) = some s →
        discoverFirst002 d = querySelAll d s) := by
  constructor
  · intro d
    constructor
    · rw [discoverUnion]
      have hgen : ∀ (ss : List String) (acc : List Nat), acc.Nodup →
          (ss.foldl (fun acc s => (querySelAll d s).foldl (addCand d) acc)
            acc).Nodup := by
        intro ss
        induction ss with
        | nil => intro acc h; exact h
        | cons s ss ih =>
          intro acc h
          exact ih _ (nodup_foldl_addCand d _ acc h)
      exact hgen _ [] List.nodup_nil
    · intro a
      rw [discoverUnion, mem_discover_foldl]
      simp
  · intro d s h
    rw [discoverFirst002, h]

theorem discovery_union_semantics_witness :
    part002Selectors.find?
        (fun s => !(querySelAll exDocC1 s).isEmpty) = some "a[href*=\"/article/\"]"
    ∧ discoverFirst002 exDocC1 = querySelAll exDocC1 "a[href*=\"/article/\"]" := by
  exact ⟨by decide,
    (discovery_union_semantics.2 exDocC1 "a[href*=\"/article/\"]" (by decide))⟩

/-! ## Claims C3 and C7: title cleanup scenarios -/

/-- The C3 scenario candidate: anchor text is purely the metadata blob, no
heading/attribute titles, URL slug `fixing-common-bugs.html`. -/
def c3Candidate : Candidate :=
  { headingText := none, titleClassText := none, titleAttr := none,
    ariaLabel := none,
    anchorText := "By Sharon Machlis Oct 3, 2024 5 mins",
    href := "https://www.infoworld.com/article/3595520/fixing-common-bugs.html",
    descTexts := [], paraText := none, dateElem := none, containerText := "" }

set_option maxRecDepth 10000

/-- C3: on the spec's scenario the code does *not* produce the slug-derived
title "Fixing Common Bugs" — the line-234 leading-byline wipe empties the
whole metadata blob before the line-247 slug-fallback check (which requires
the title to *still* start with "By Sharon Machlis"), so the record gets
the "Untitled Article" sentinel.  The slug machinery itself works whenever
the wipe does not preempt it: the same URL with the date-free blob
"By Sharon Machlis" does yield "Fixing Common Bugs". -/
theorem blob_title_slug_fallback_bug :
    (extractRecord c3Candidate).title = "Untitled Article"
    ∧ cleanTitle "By Sharon Machlis"
        "https://www.infoworld.com/article/3595520/fixing-common-bugs.html"
      = "Fixing Common Bugs" := by
  exact ⟨by decide, by decide⟩

/-- C7: the trailing-metadata anchor text is cleaned to exactly
"How to Use Widgets" (byline, date, reading time and trailing category all
stripped). -/
theorem widgets_title_cleanup :
    cleanTitle
      "How to Use Widgets By Sharon Machlis Oct 3, 2024 5 mins R Language"
      "https://www.infoworld.com/article/1.html"
    = "How to Use Widgets" := by
  decide

/-! ## Claim C4: synthetic publish dates -/

/-- C4: at serialization, only a record whose date string is *empty* gets
the staggered synthetic date `buildTime − index·7 days`; a record whose
date string is non-empty but unparseable (here `"soon"`, with no
month-day-year pattern either) keeps the channel build time itself — the
staggered-date branch for parse failures sits in an unreachable `catch`
(`new Date(string)` never throws).  Evaluated at `buildTime = 0`,
`index = 2`: the unparseable record gets `0`, not `0 − 2·interval`. -/
theorem synthetic_date_resolution :
    resolvePubDateT (fun _ => none) (fun _ _ _ => 0) 0 2 "soon" = 0
    ∧ resolvePubDateT (fun _ => none) (fun _ _ _ => 0) 0 2 ""
      = -(2 * 7 * dayMs)
    ∧ (0 : Int) ≠ -(2 * 7 * dayMs) := by
  exact ⟨by decide, by decide, by decide⟩

/-! ## Claim C2: record field invariants -/

/-- Does the string start with "By" (case-insensitively) followed by a
whitespace character — the shape every raw "By `<author>` … mins" metadata
blob has? -/
def startsByBlankL : List Char → Bool
  | b :: y :: c :: _ => (b.toLower = 'b' && y.toLower = 'y') && isSpaceC c
  | _ => false

def startsByBlank (s : String) : Bool := startsByBlankL s.data

theorem startsByBlankL_take (l : List Char) (n : Nat) (h : 3 ≤ n) :
    startsByBlankL (l.take n) = startsByBlankL l := by
  obtain ⟨m, rfl⟩ : ∃ m, n = m + 3 := ⟨n - 3, by omega⟩
  rcases l with - | ⟨b, - | ⟨y, - | ⟨c, rest⟩⟩⟩ <;> rfl

/-- A title of blob shape is caught by the final-guard keyword pattern. -/
theorem startsByBlankL_guard (l : List Char)
    (h : startsByBlankL l = true) : (pGuardKw l).isSome = true := by
  rcases l with - | ⟨b, - | ⟨y, - | ⟨c, rest⟩⟩⟩ <;> simp [startsByBlankL] at h
  obtain ⟨⟨hb, hy⟩, hc⟩ := h
  simp only [pGuardKw, show "by".data = ['b', 'y'] from rfl, altLitsCI,
    litCI, chOne, anyRest, hb, hy, hc, if_true]
  rfl

/-- Guarded titles are at least 5 characters or the sentinel, and never of
blob shape. -/
theorem finalizeTitle_props (t : List Char) :
    1 ≤ (finalizeTitle t).length
    ∧ startsByBlankL (finalizeTitle t) = false := by
  unfold finalizeTitle
  split
  · exact ⟨by decide, by decide⟩
  · next h =>
    simp only [Bool.or_eq_true, not_or] at h
    obtain ⟨⟨h1, _⟩, h3⟩ := h
    refine ⟨?_, ?_⟩
    · have : 5 ≤ t.length := Nat.le_of_not_lt (by simpa using h1)
      omega
    · by_contra hb
      rw [Bool.not_eq_false] at hb
      exact h3 (by simpa using startsByBlankL_guard t hb)

/-- Every cleaned title ends in the final guard. -/
theorem cleanTitleL_eq_finalize (raw url : List Char) :
    ∃ t, cleanTitleL raw url = finalizeTitle t :=
  ⟨_, rfl⟩

theorem cleanTitleL_props (raw url : List Char) :
    1 ≤ (cleanTitleL raw url).length
    ∧ startsByBlankL (cleanTitleL raw url) = false := by
  obtain ⟨t, ht⟩ := cleanTitleL_eq_finalize raw url
  rw [ht]
  exact finalizeTitle_props t

theorem fallbackRec_title_ne (ln : RawLink) : (fallbackRec ln).title ≠ "" := by
  show fallbackTitle ln ≠ ""
  unfold fallbackTitle
  by_cases h : jsTrim ln.text ≠ ""
  · rw [if_pos h]; exact h
  · rw [if_neg h]
    rcases hA : ln.titleAttr with - | a
    · decide
    · show (if a ≠ "" then a else "Article") ≠ ""
      by_cases h2 : a ≠ ""
      · rw [if_pos h2]; exact h2
      · rw [if_neg h2]; decide

/-- The C2 fallback counterexample link: its text is exactly a raw
metadata blob. -/
def c2FallbackLink : RawLink :=
  { text := "By Sharon Machlis Oct 3, 2024 5 mins", titleAttr := none,
    href := "https://www.infoworld.com/article/3595520/fixing-common-bugs.html" }

/-- C2 counterexample: on the zero-candidates fallback path the link text
is used verbatim, so the emitted record's title *is* the raw
"By `<author>` … mins" metadata blob (and, being uncapped, similar titles
can also exceed 200 characters). -/
theorem fallback_title_blob :
    (fallbackArticles [c2FallbackLink]).map Rec.title
      = ["By Sharon Machlis Oct 3, 2024 5 mins"]
    ∧ startsByBlank "By Sharon Machlis Oct 3, 2024 5 mins" = true := by
  exact ⟨by decide, by decide⟩

/-- Projection equations of the pushed record (lines 376–382). -/
theorem extractRecord_fields (c : Candidate) :
    (extractRecord c).title = jsTakeS 200 (cleanTitle (initialTitle c) c.href)
    ∧ (extractRecord c).description
      = jsTakeS 500 (String.mk (processDescriptionL (pickDescription c).data)) :=
  ⟨rfl, rfl⟩

theorem jsTakeS_data (n : Nat) (s : String) :
    (jsTakeS n s).data = s.data.take n := by
  rw [show jsTakeS n s = String.mk (s.data.take n) from rfl]

theorem cleanTitle_data (a b : String) :
    (cleanTitle a b).data = cleanTitleL a.data b.data := by
  rw [show cleanTitle a b = String.mk (cleanTitleL a.data b.data) from rfl]

theorem string_length_eq_data (s : String) : s.length = s.data.length := rfl

theorem string_ne_empty_of_data (s : String) (h : s.data ≠ []) : s ≠ "" :=
  fun hEq => h (by rw [hEq])

theorem jsTakeS_length_le (n : Nat) (s : String) : (jsTakeS n s).length ≤ n := by
  rw [string_length_eq_data, jsTakeS_data]
  simp

/-- C2 amended: on the main extraction path every record's title is capped
at 200 characters, non-empty and never of "By `<author>` …" blob shape,
and its description is capped at 500 characters; on the zero-candidates
fallback path only non-emptiness of the title and the description bound
survive (the title is the raw link text — uncleaned and uncapped). -/
theorem record_field_invariants :
    (∀ c : Candidate,
      (extractRecord c).title.length ≤ 200
      ∧ (extractRecord c).title ≠ ""
      ∧ startsByBlank (extractRecord c).title = false
      ∧ (extractRecord c).description.length ≤ 500)
    ∧ (∀ (ls : List RawLink) (r : Rec), r ∈ fallbackArticles ls →
        r.title ≠ "" ∧ r.description.length ≤ 500) := by
  constructor
  · intro c
    obtain ⟨hT, hD⟩ := extractRecord_fields c
    obtain ⟨hlen, hblob⟩ :=
      cleanTitleL_props (initialTitle c).data c.href.data
    refine ⟨?_, ?_, ?_, ?_⟩
    · rw [hT]; exact jsTakeS_length_le 200 _
    · rw [hT]
      apply string_ne_empty_of_data
      rw [jsTakeS_data, cleanTitle_data]
      intro h3
      rcases List.take_eq_nil_iff.mp h3 with h4 | h4
      · exact absurd h4 (by norm_num)
      · rw [h4] at hlen; simp at hlen
    · rw [hT]
      show startsByBlankL (jsTakeS 200 (cleanTitle (initialTitle c) c.href)).data = false
      rw [jsTakeS_data, cleanTitle_data,
        startsByBlankL_take _ 200 (by norm_num)]
      exact hblob
    · rw [hD]; exact jsTakeS_length_le 500 _
  · intro ls r hr
    refine jsMapDedup_forall
      (fun r => r.title ≠ "" ∧ r.description.length ≤ 500) _ ?_ r hr
    intro x hx
    have h1 := List.take_subset MAX_ARTICLES _ hx
    have h2 := List.mem_of_mem_filter h1
    obtain ⟨ln, -, rfl⟩ := List.mem_map.mp h2
    exact ⟨fallbackRec_title_ne ln, by simp [fallbackRec]⟩

theorem record_field_invariants_witness :
    fallbackRec c2FallbackLink ∈ fallbackArticles [c2FallbackLink]
    ∧ (fallbackRec c2FallbackLink).title ≠ ""
    ∧ (fallbackRec c2FallbackLink).description.length ≤ 500 := by
  have hmem : fallbackRec c2FallbackLink ∈ fallbackArticles [c2FallbackLink] := by
    decide
  have h := record_field_invariants.2 [c2FallbackLink]
    (fallbackRec c2FallbackLink) hmem
  exact ⟨hmem, h.1, h.2⟩

/-! ## Claim C5: escaping and decoding -/

theorem repChar_append (c : Char) (r a b : List Char) :
    repChar c r (a ++ b) = repChar c r a ++ repChar c r b := by
  induction a with
  | nil => simp [repChar]
  | cons x xs ih => simp [repChar, ih]

theorem escapeXmlL_append (a b : List Char) :
    escapeXmlL (a ++ b) = escapeXmlL a ++ escapeXmlL b := by
  simp [escapeXmlL, repChar_append]

theorem xmlDecode_cons_ne (c : Char) (xs : List Char) (h : c ≠ '&') :
    xmlDecode (c :: xs) = c :: xmlDecode xs := by
  rw [xmlDecode, if_neg h]

theorem escapeXmlL_single (c : Char) :
    escapeXmlL [c] =
      if c = '&' then "&amp;".data
      else if c = '<' then "&lt;".data
      else if c = '>' then "&gt;".data
      else if c = '"' then "&quot;".data
      else if c = Char.ofNat 39 then "&apos;".data
      else [c] := by
  by_cases h1 : c = '&'
  · subst h1; decide
  rw [if_neg h1]
  by_cases h2 : c = '<'
  · subst h2; decide
  rw [if_neg h2]
  by_cases h3 : c = '>'
  · subst h3; decide
  rw [if_neg h3]
  by_cases h4 : c = '"'
  · subst h4; decide
  rw [if_neg h4]
  by_cases h5 : c = Char.ofNat 39
  · subst h5; decide
  rw [if_neg h5]
  simp [escapeXmlL, repChar, h1, h2, h3, h4, h5]

theorem escapeXmlL_cons (c : Char) (l : List Char) :
    escapeXmlL (c :: l) = escapeXmlL [c] ++ escapeXmlL l := by
  rw [show (c :: l) = [c] ++ l from rfl, escapeXmlL_append]

/-- Escape-then-decode is the identity on every string. -/
theorem xmlDecode_escapeXmlL (l : List Char) :
    xmlDecode (escapeXmlL l) = l := by
  induction l with
  | nil =>
    rw [show escapeXmlL [] = [] from rfl]
    simp [xmlDecode]
  | cons c l ih =>
    rw [escapeXmlL_cons, escapeXmlL_single]
    by_cases h1 : c = '&'
    · subst h1
      rw [if_pos rfl,
        show "&amp;".data ++ escapeXmlL l
          = '&' :: 'a' :: 'm' :: 'p' :: ';' :: escapeXmlL l from rfl,
        xmlDecode, if_pos rfl]
      simp [decEnt, ih]
    rw [if_neg h1]
    by_cases h2 : c = '<'
    · subst h2
      rw [if_pos rfl,
        show "&lt;".data ++ escapeXmlL l
          = '&' :: 'l' :: 't' :: ';' :: escapeXmlL l from rfl,
        xmlDecode, if_pos rfl]
      simp [decEnt, ih]
    rw [if_neg h2]
    by_cases h3 : c = '>'
    · subst h3
      rw [if_pos rfl,
        show "&gt;".data ++ escapeXmlL l
          = '&' :: 'g' :: 't' :: ';' :: escapeXmlL l from rfl,
        xmlDecode, if_pos rfl]
      simp [decEnt, ih]
    rw [if_neg h3]
    by_cases h4 : c = '"'
    · subst h4
      rw [if_pos rfl,
        show "&quot;".data ++ escapeXmlL l
          = '&' :: 'q' :: 'u' :: 'o' :: 't' :: ';' :: escapeXmlL l from rfl,
        xmlDecode, if_pos rfl]
      simp [decEnt, ih]
    rw [if_neg h4]
    by_cases h5 : c = Char.ofNat 39
    · subst h5
      rw [if_pos rfl,
        show "&apos;".data ++ escapeXmlL l
          = '&' :: 'a' :: 'p' :: 'o' :: 's' :: ';' :: escapeXmlL l from rfl,
        xmlDecode, if_pos rfl]
      simp [decEnt, ih]
    rw [if_neg h5,
      show [c] ++ escapeXmlL l = c :: escapeXmlL l from rfl,
      xmlDecode_cons_ne c _ h1, ih]

/-- Escaped text never contains a raw `<`. -/
theorem escapeXmlL_no_lt (l : List Char) :
    ∀ x ∈ escapeXmlL l, x ≠ '<' := by
  induction l with
  | nil => simp [escapeXmlL, repChar]
  | cons c l ih =>
    rw [escapeXmlL_cons]
    intro x hx heq
    subst heq
    rcases List.mem_append.mp hx with h | h
    · rw [escapeXmlL_single] at h
      split_ifs at h with h1 h2 h3 h4 h5
      · revert h; decide
      · revert h; decide
      · revert h; decide
      · revert h; decide
      · revert h; decide
      · simp at h
        exact h2 h.symm
    · exact ih '<' h rfl

theorem isPrefixL_append_self (p x : List Char) :
    isPrefixL p (p ++ x) = true := by
  induction p with
  | nil => rfl
  | cons c p ih => simp [isPrefixL, ih]

/-- On content without a raw `<` (in particular on escaped content) the
parser takes the entity-decoding branch. -/
theorem parseElementText_escaped (t : List Char) :
    parseElementText (escapeXmlL t) = t := by
  unfold parseElementText
  have hcond : isPrefixL "<![CDATA[".data (escapeXmlL t) = false := by
    rcases hE : escapeXmlL t with - | ⟨x, rest⟩
    · rfl
    · have hx : x ≠ '<' :=
        escapeXmlL_no_lt t x (by rw [hE]; exact List.mem_cons_self x rest)
      have hne : ¬('<' = x) := fun hh => hx hh.symm
      rw [show "<![CDATA[".data = '<' :: "![CDATA[".data from rfl]
      simp [isPrefixL, hne]
  rw [hcond]
  simp [xmlDecode_escapeXmlL]

/-- CDATA content is returned literally by the parser. -/
theorem parseElementText_cdata (e : List Char) :
    parseElementText (cdataWrap e) = e := by
  unfold parseElementText cdataWrap
  have h1 : isPrefixL "<![CDATA[".data
      ("<![CDATA[".data ++ e ++ "]]>".data) = true := by
    rw [List.append_assoc]
    exact isPrefixL_append_self _ _
  have h2 : endsWithL "]]>".data
      ("<![CDATA[".data ++ e ++ "]]>".data) = true := by
    unfold endsWithL
    rw [List.reverse_append]
    exact isPrefixL_append_self _ _
  have hlen : ("<![CDATA[".data ++ e ++ "]]>".data).length
      = e.length + 12 := by
    simp [List.length_append]
  have h3 : Nat.ble 12 ("<![CDATA[".data ++ e ++ "]]>".data).length = true := by
    rw [hlen]
    exact Nat.ble_eq.mpr (by omega)
  have hd : ("<![CDATA[".data ++ e ++ "]]>".data).drop 9 = e ++ "]]>".data := by
    rw [List.append_assoc,
      show (9 : Nat) = ("<![CDATA[".data).length from rfl]
    exact List.drop_left _ _
  have ht : (e ++ "]]>".data).take
      (("<![CDATA[".data ++ e ++ "]]>".data).length - 12) = e := by
    rw [hlen, show e.length + 12 - 12 = e.length from by omega]
    exact List.take_left ..
  rw [h1, h2, h3]
  simp only [Bool.true_and, Bool.and_self, if_true]
  rw [hd]
  exact ht

/-- The element content of the emitted `description` node: the CDATA
wrapping of the escaped effective description
(`<description><![CDATA[ … ]]></description>`, line 553). -/
def itemDescriptionContent (a : Rec) : List Char :=
  cdataWrap (escapeXmlL (effectiveDescription a).data)

/-- A record whose description contains a reserved character. -/
def c5Rec : Rec :=
  { title := "Understanding data frames", url := "u",
    description := "Ampersand & ampersand", pubDate := "",
    author := "Sharon Machlis" }

/-- C5 counterexample: the description is escaped *and then* CDATA-wrapped,
so a standard parser returns the escaped text literally — the `&` in the
original description decodes to `&amp;`, not back to `&`. -/
theorem description_roundtrip_fails :
    effectiveDescription c5Rec = c5Rec.description
    ∧ parseElementText (itemDescriptionContent c5Rec)
      ≠ c5Rec.description.data := by
  exact ⟨by decide, by decide⟩

/-- C5 amended: escape-then-decode is the identity on titles (whose element
content is plain escaped text), while the emitted description element
content — escaped and then CDATA-wrapped — decodes to the *escaped* form of
the description, which differs from the original exactly when a reserved
character occurs. -/
theorem escape_decode_roundtrip :
    (∀ t : String, parseElementText (escapeXmlL t.data) = t.data)
    ∧ (∀ a : Rec,
        parseElementText (itemDescriptionContent a)
          = escapeXmlL (effectiveDescription a).data) := by
  constructor
  · intro t
    exact parseElementText_escaped t.data
  · intro a
    exact parseElementText_cdata _

/-! ## Claim C10: the default description substitution -/

theorem escapeXmlL_single_ne (c : Char) : escapeXmlL [c] ≠ [] := by
  rw [escapeXmlL_single]
  split_ifs <;> simp

theorem escapeXmlL_ne_nil (l : List Char) (h : l ≠ []) :
    escapeXmlL l ≠ [] := by
  rcases l with - | ⟨c, rest⟩
  · exact absurd rfl h
  · rw [escapeXmlL_cons]
    simp only [ne_eq, List.append_eq_nil, not_and]
    intro hc
    exact absurd hc (escapeXmlL_single_ne c)

theorem effectiveDescription_ne (a : Rec) :
    (effectiveDescription a).data ≠ [] := by
  unfold effectiveDescription
  split
  · show (defaultDescription a.title).data ≠ []
    unfold defaultDescription
    rw [String.data_append, String.data_append]
    simp [String.data_append]
  · next h =>
    simp only [Bool.or_eq_true, decide_eq_true_eq, not_or] at h
    intro hd
    apply h.2
    rw [string_length_eq_data, hd]
    simp

/-- C10: a record whose description is empty or shorter than 10 characters
gets the generated default sentence embedding its title, and the emitted
description element content is never empty. -/
theorem default_description_substitution (a : Rec) :
    ((a.description = "" ∨ a.description.length < 10) →
      effectiveDescription a = defaultDescription a.title)
    ∧ escapeXmlL (effectiveDescription a).data ≠ []
    ∧ itemDescriptionContent a ≠ [] := by
  refine ⟨?_, ?_, ?_⟩
  · intro h
    rcases h with h | h
    · simp [effectiveDescription, h]
    · simp [effectiveDescription, h]
  · exact escapeXmlL_ne_nil _ (effectiveDescription_ne a)
  · unfold itemDescriptionContent cdataWrap
    simp

/-- A record with the 1-character description "x". -/
def c10Rec : Rec :=
  { title := "Tips and tricks", url := "u", description := "x",
    pubDate := "", author := "Sharon Machlis" }

theorem default_description_substitution_witness :
    (c10Rec.description = "" ∨ c10Rec.description.length < 10)
    ∧ effectiveDescription c10Rec = defaultDescription c10Rec.title
    ∧ escapeXmlL (effectiveDescription c10Rec).data ≠ []
    ∧ itemDescriptionContent c10Rec ≠ [] := by
  have h := default_description_substitution c10Rec
  exact ⟨Or.inr (by decide), h.1 (Or.inr (by decide)), h.2.1, h.2.2⟩

/-! ## Claim C9: serializing the empty record sequence -/

theorem runWF_append (a b : List Char) (s : WFSt) :
    runWF (a ++ b) s
      = match runWF a s with
        | some s2 => runWF b s2
        | none => none := by
  induction a generalizing s with
  | nil => simp [runWF]
  | cons c a ih =>
    show runWF (c :: (a ++ b)) s = _
    cases h : wfStep s c with
    | none => simp [runWF, h]
    | some s2 => simp [runWF, h, ih]

theorem runWF_append_some {a s s2 : _} (b : List Char)
    (h : runWF a s = some s2) : runWF (a ++ b) s = runWF b s2 := by
  rw [runWF_append, h]

/-- Character data without `<` leaves the machine state unchanged. -/
theorem runWF_text (t : List Char) (stk : List (List Char))
    (h : ∀ c ∈ t, c ≠ '<') : runWF t ⟨stk, none⟩ = some ⟨stk, none⟩ := by
  induction t with
  | nil => rfl
  | cons c t ih =>
    have hc : c ≠ '<' := h c (List.mem_cons_self c t)
    rw [runWF,
      show wfStep ⟨stk, none⟩ c = some ⟨stk, none⟩ from by simp [wfStep, hc]]
    exact ih (fun x hx => h x (List.mem_cons_of_mem c hx))

theorem wellformed_of_runWF (s : String)
    (h : runWF s.data wfInit = some ⟨[], none⟩) : wellFormedXml s = true := by
  unfold wellFormedXml
  rw [h]
  rfl

theorem escapeXmlS_data (s : String) :
    (escapeXmlS s).data = escapeXmlL s.data := by
  rw [show escapeXmlS s = String.mk (escapeXmlL s.data) from rfl]

/-- Machine states between the concrete segments of the feed document. -/
def wfStLink : WFSt := ⟨["link".data, "channel".data, "rss".data], none⟩

def wfStDate : WFSt := ⟨["lastBuildDate".data, "channel".data, "rss".data], none⟩

def wfStChan : WFSt := ⟨["channel".data, "rss".data], none⟩

def wfStPub : WFSt :=
  ⟨["pubDate".data, "item".data, "channel".data, "rss".data], none⟩

theorem runWF_headerA : runWF rssHeaderA.data wfInit = some wfStLink := by
  decide

theorem runWF_headerB : runWF rssHeaderB.data wfStLink = some wfStDate := by
  decide

theorem runWF_headerC : runWF rssHeaderC.data wfStDate = some wfStChan := by
  decide

theorem runWF_footer : runWF rssFooter.data wfStChan = some ⟨[], none⟩ := by
  decide

/-- The concrete part of the placeholder item before its publish date. -/
def c9ItemPre : String :=
  "\n    <item>\n      <title>" ++ escapeXmlS "Feed Generation Notice"
  ++ "</title>\n      <link>" ++ escapeXmlS mainProfileUrl
  ++ "</link>\n      <description><![CDATA["
  ++ escapeXmlS "The RSS feed generator could not find articles. Please check the source page."
  ++ "]]></description>\n      <dc:creator>" ++ escapeXmlS "System"
  ++ "</dc:creator>\n      <pubDate>"

/-- The concrete part of the placeholder item after its publish date. -/
def c9ItemPost : String :=
  "</pubDate>\n      <guid isPermaLink=\"true\">" ++ escapeXmlS mainProfileUrl
  ++ "</guid>\n    </item>"

theorem runWF_itemPre : runWF c9ItemPre.data wfStChan = some wfStPub := by
  decide

theorem runWF_itemPost : runWF c9ItemPost.data wfStPub = some wfStChan := by
  decide

/-- The placeholder item is the two concrete segments around its (escaped
collaborator-formatted) publish date. -/
theorem placeholder_item_eq (parseD : String → Option Int)
    (mkD : Nat → Nat → Nat → Int) (fmtD : Int → String) (nowMs : Int)
    (nowStr : String) :
    itemOfArticle parseD mkD fmtD nowMs 0
      (emptyFeedPlaceholder mainProfileUrl nowStr)
    = c9ItemPre ++ fmtD (resolvePubDateT parseD mkD nowMs 0 nowStr)
      ++ c9ItemPost := by
  have hx : ¬ (("The RSS feed generator could not find articles. Please check the source page." : String).length < 10) := by
    decide
  simp [itemOfArticle, rssItem, emptyFeedPlaceholder, effectiveDescription,
    c9ItemPre, c9ItemPost, String.append_assoc, hx]

/-- C9: serializing an empty record sequence yields the well-formed header
plus footer with zero items, and `main`'s empty-articles branch yields a
well-formed document with exactly one placeholder item — never malformed
markup.  The only assumption is that the host date formatter emits no `<`
(true of `toUTCString`). -/
theorem empty_feed_wellformed (parseD : String → Option Int)
    (mkD : Nat → Nat → Nat → Int) (fmtD : Int → String) (nowMs : Int)
    (nowStr purl : String)
    (hfmt : ∀ t : Int, ∀ c ∈ (fmtD t).data, c ≠ '<') :
    wellFormedXml (generateRSS parseD mkD fmtD nowMs [] purl) = true
    ∧ generateRSS parseD mkD fmtD nowMs [] purl
      = rssHeaderA ++ escapeXmlS purl ++ rssHeaderB ++ fmtD nowMs
        ++ rssHeaderC ++ rssFooter
    ∧ wellFormedXml (mainEmptyFeed parseD mkD fmtD nowMs nowStr) = true
    ∧ mainEmptyFeed parseD mkD fmtD nowMs nowStr
      = rssHeaderA ++ escapeXmlS mainProfileUrl ++ rssHeaderB ++ fmtD nowMs
        ++ rssHeaderC
        ++ itemOfArticle parseD mkD fmtD nowMs 0
            (emptyFeedPlaceholder mainProfileUrl nowStr)
        ++ rssFooter := by
  have hEmptyEq : generateRSS parseD mkD fmtD nowMs [] purl
      = rssHeaderA ++ escapeXmlS purl ++ rssHeaderB ++ fmtD nowMs
        ++ rssHeaderC ++ rssFooter := by
    simp [generateRSS, String.join]
  have hMainEq : mainEmptyFeed parseD mkD fmtD nowMs nowStr
      = rssHeaderA ++ escapeXmlS mainProfileUrl ++ rssHeaderB ++ fmtD nowMs
        ++ rssHeaderC
        ++ itemOfArticle parseD mkD fmtD nowMs 0
            (emptyFeedPlaceholder mainProfileUrl nowStr)
        ++ rssFooter := by
    simp [mainEmptyFeed, generateRSS, String.join]
  have hEscText : ∀ s : String,
      runWF (escapeXmlS s).data wfStLink = some wfStLink := by
    intro s
    refine runWF_text _ _ ?_
    rw [escapeXmlS_data]
    exact escapeXmlL_no_lt s.data
  have hFmtText : ∀ (t : Int) (stk : List (List Char)),
      runWF (fmtD t).data ⟨stk, none⟩ = some ⟨stk, none⟩ := by
    intro t stk
    exact runWF_text _ _ (hfmt t)
  have hFmtDate : ∀ t : Int,
      runWF (fmtD t).data wfStDate = some wfStDate := fun t => hFmtText t _
  have hFmtPub : ∀ t : Int,
      runWF (fmtD t).data wfStPub = some wfStPub := fun t => hFmtText t _
  refine ⟨?_, hEmptyEq, ?_, hMainEq⟩
  · rw [hEmptyEq]
    apply wellformed_of_runWF
    simp only [String.data_append, List.append_assoc]
    rw [runWF_append_some _ runWF_headerA,
      runWF_append_some _ (hEscText purl),
      runWF_append_some _ runWF_headerB,
      runWF_append_some _ (hFmtDate nowMs),
      runWF_append_some _ runWF_headerC]
    exact runWF_footer
  · rw [hMainEq,
      placeholder_item_eq parseD mkD fmtD nowMs nowStr]
    apply wellformed_of_runWF
    simp only [String.data_append, List.append_assoc]
    rw [runWF_append_some _ runWF_headerA,
      runWF_append_some _ (hEscText mainProfileUrl),
      runWF_append_some _ runWF_headerB,
      runWF_append_some _ (hFmtDate nowMs),
      runWF_append_some _ runWF_headerC,
      runWF_append_some _ runWF_itemPre,
      runWF_append_some _ (hFmtPub _),
      runWF_append_some _ runWF_itemPost]
    exact runWF_footer

theorem empty_feed_wellformed_witness :
    (∀ t : Int,
      ∀ c ∈ ((fun _ : Int => "Thu, 01 Jan 2026 00:00:00 GMT") t).data,
        c ≠ '<')
    ∧ wellFormedXml (generateRSS (fun _ => none) (fun _ _ _ => 0)
        (fun _ => "Thu, 01 Jan 2026 00:00:00 GMT") 0 [] "u&r") = true
    ∧ wellFormedXml (mainEmptyFeed (fun _ => none) (fun _ _ _ => 0)
        (fun _ => "Thu, 01 Jan 2026 00:00:00 GMT") 0 "now") = true := by
  have hf : ∀ t : Int,
      ∀ c ∈ ((fun _ : Int => "Thu, 01 Jan 2026 00:00:00 GMT") t).data,
        c ≠ '<' := by
    intro t
    show ∀ c ∈ ("Thu, 01 Jan 2026 00:00:00 GMT" : String).data, c ≠ '<'
    decide
  have h := empty_feed_wellformed (fun _ => none) (fun _ _ _ => 0)
    (fun _ => "Thu, 01 Jan 2026 00:00:00 GMT") 0 "now" "u&r" hf
  exact ⟨hf, h.1, h.2.2.1⟩

end Scraper

